import Mathlib

/-!
Verification of the Spot It generator's combinatorial core.

The definitions in this file are shallow embeddings of the JavaScript
source (`src/algorithm.js` and the AI-API orchestration module).
JavaScript numbers that only ever hold small non-negative integers are
modelled as `Nat`; pixel coordinates (which are IEEE doubles in the
source) are modelled as `Rat`, with the float-valued pseudo-random and
trigonometric primitives abstracted as function parameters constrained
to their mathematical ranges.
-/

namespace SpotIt

/-- Embedding of the first loop of `generateCards` (`src/algorithm.js`):
`for (let i = 0; i <= n; i++) firstCard.push(i)` — symbols `0..n`. -/
def firstCard (n : Nat) : List Nat := List.range (n + 1)

/-- Embedding of one card of the second loop of `generateCards`:
`[0]` then `for (let j = 0; j < n; j++) card.push(n + 1 + i * n + j)`. -/
def groupCard (n i : Nat) : List Nat :=
  0 :: (List.range n).map (fun j => n + 1 + i * n + j)

/-- Embedding of one card of the third (nested) loop of `generateCards`:
`[i + 1]` then `for (let k = 0; k < n; k++)
card.push(n + 1 + k * n + ((i * k + j) % n))`. -/
def gridCard (n i j : Nat) : List Nat :=
  (i + 1) :: (List.range n).map (fun k => n + 1 + k * n + ((i * k + j) % n))

/-- Embedding of `generateCards(n)` (`src/algorithm.js`, lines 22-54):
the first card, then the `n` group cards in increasing `i`, then the
`n²` grid cards in row-major `(i, j)` order, exactly as pushed by the
source's loops. -/
def generateCards (n : Nat) : List (List Nat) :=
  firstCard n ::
    ((List.range n).map (groupCard n) ++
      ((List.range n).map (fun i => (List.range n).map (gridCard n i))).flatten)

/-- Embedding of `getTotalSymbols(n)` (`src/algorithm.js`): `n * n + n + 1`. -/
def getTotalSymbols (n : Nat) : Nat := n * n + n + 1

/-- Embedding of `getSymbolsPerCard(n)` (`src/algorithm.js`): `n + 1`. -/
def getSymbolsPerCard (n : Nat) : Nat := n + 1

/-- Embedding of `cards[i].filter(s => cards[j].includes(s)).length`
from `verifyCards` (`src/algorithm.js`, line 83). -/
def sharedCount (a b : List Nat) : Nat :=
  (a.filter (fun s => b.contains s)).length

/-- Embedding of `verifyCards(cards)` (`src/algorithm.js`, lines 80-91):
the double loop over index pairs `i < j` checking that each pair of
cards shares exactly one symbol. -/
def verifyCards : List (List Nat) → Bool
  | [] => true
  | c :: rest => rest.all (fun d => sharedCount c d == 1) && verifyCards rest

/-- A card is well-formed for a deck of `total` symbols with `k` symbols
per card: exactly `k` entries, pairwise distinct, all in `[0, total)`.
(The distinctness and range conditions of spec §8, phrased executably.) -/
def cardOk (total k : Nat) (c : List Nat) : Bool :=
  c.length == k && decide c.Nodup && c.all (fun s => s < total)

/-!
Model of the `RateLimiter` class of the AI-API module (lines 377-423):
`activeCount` and `requestTimestamps` are the instance fields, and the
current wall-clock reading (`Date.now()`) is carried explicitly as
`now` (a millisecond count, assumed monotone across events, which is
how the module uses it).  The model keeps the full history of recorded
call-start timestamps; the source's `cleanupTimestamps` only ever drops
entries older than 60 s, which cannot change any of the window counts
the guards read, so keeping the history is observationally equivalent.
-/

/-- The mutable state of one `RateLimiter` plus the current clock. -/
structure RLState where
  activeCount : Nat
  timestamps : List Nat
  now : Nat

/-- `requestTimestamps.filter(ts => ts > Date.now() - 60000).length`:
the number of recorded call starts in the trailing 60-second window
(the quantity `acquire`'s `isRateLimited` guard reads).  `ts > now -
60000` over JavaScript numbers is written `now < ts + 60000` to avoid
truncated natural subtraction. -/
def recentCount (ts : List Nat) (now : Nat) : Nat :=
  (ts.filter (fun x => now < x + 60000)).length

/-- Number of recorded call starts inside the sliding window `(T -
60000, T]` anchored at an arbitrary instant `T`. -/
def windowCount (ts : List Nat) (t : Nat) : Nat :=
  (ts.filter (fun x => x ≤ t && t < x + 60000)).length

/-- One observable step of the rate limiter.  `acquire` is the exit of
the `while` loop in `RateLimiter.acquire` together with
`activeCount++` and the timestamp push: in JavaScript's
run-to-completion semantics the final (false) evaluation of the loop
condition, the increment and the push happen in one synchronous
segment, so they form one atomic step whose guards are exactly the
loop condition's two disjuncts.  `release` is `activeCount--` (the
source never lets it run without a matching acquire; natural-number
truncation at zero only makes the modelled set of behaviours larger).
`tick` lets the clock advance between events. -/
inductive RLStep (maxConcurrent maxPerMinute : Nat) : RLState → RLState → Prop
  | tick {s : RLState} {t : Nat} (h : s.now ≤ t) :
      RLStep maxConcurrent maxPerMinute s ⟨s.activeCount, s.timestamps, t⟩
  | acquire {s : RLState} (hc : s.activeCount < maxConcurrent)
      (hr : recentCount s.timestamps s.now < maxPerMinute) :
      RLStep maxConcurrent maxPerMinute s
        ⟨s.activeCount + 1, s.now :: s.timestamps, s.now⟩
  | release {s : RLState} :
      RLStep maxConcurrent maxPerMinute s
        ⟨s.activeCount - 1, s.timestamps, s.now⟩

/-- States reachable from a freshly constructed
`new RateLimiter(maxConcurrent, maxPerMinute)` (fields `activeCount =
0`, `requestTimestamps = []`), at an arbitrary start time. -/
inductive RLReachable (maxConcurrent maxPerMinute : Nat) : RLState → Prop
  | init (t : Nat) : RLReachable maxConcurrent maxPerMinute ⟨0, [], t⟩
  | step {s s2 : RLState} : RLReachable maxConcurrent maxPerMinute s →
      RLStep maxConcurrent maxPerMinute s s2 →
      RLReachable maxConcurrent maxPerMinute s2

/-!
Model of the artwork batch orchestrator (`generateAllImages`,
`generateImageWithRateLimit`).  The image provider is an oracle
`provider index attempt` returning `some data` when that attempt of
`generateImage` resolves and `none` when it throws; the abort signal
is an oracle `aborted` sampled once per chunk iteration (the
chunk-boundary check, the progress callback and the dispatch of every
item of the chunk — including each item's own `signal?.aborted`
pre-dispatch check — run in one synchronous JavaScript segment, so
they all read the same value).  Results are the orchestrator's
`images` array (`none` = the slot's initial `null`).
-/

/-- The retry loop of `generateImageWithRateLimit` (lines 432-471):
try attempts `start, start+1, …` while fuel lasts, returning the first
success; exhausting all attempts rethrows the last error (`none`). -/
def retryAttempts (provider : Nat → Nat → Option String)
    (index start fuel : Nat) : Option String :=
  match fuel with
  | 0 => none
  | f + 1 =>
    match provider index start with
    | some r => some r
    | none => retryAttempts provider index (start + 1) f

/-- `generateImageWithRateLimit(description, index, maxRetries)`:
up to `maxRetries` attempts starting at attempt `0`. -/
def generateImageWithRateLimit (provider : Nat → Nat → Option String)
    (index maxRetries : Nat) : Option String :=
  retryAttempts provider index 0 maxRetries

/-- The body of one chunk of `generateAllImages` (lines 516-557): for
each index of the chunk, skip if the signal is aborted (the per-item
pre-dispatch check), otherwise run the rate-limited generation and
store the outcome at that index (`images[index] = imageData` on
success; on a caught error the slot keeps its `null`).  `maxRetries`
is `3` as in the source's default. -/
def processChunk (provider : Nat → Nat → Option String)
    (aborted : Nat → Bool) (c : Nat) (idxs : List Nat)
    (images : List (Option String)) : List (Option String) :=
  idxs.foldl
    (fun imgs idx =>
      if aborted c then imgs
      else imgs.set idx (generateImageWithRateLimit provider idx 3))
    images

/-- The chunked loop of `generateAllImages` (lines 495-566), with the
chunk counter `c` standing for the loop variable `i = 10 * c` and a
fuel argument making the recursion structural (any fuel with
`total ≤ 10 * c + 10 * fuel` runs the loop to its natural end).  The
first component is the call's outcome — `Except.error` models the
`throw new Error("Generation cancelled")` at an aborted chunk
boundary, `Except.ok` the final `return images` — and the second
component records which item indices were dispatched. -/
def runChunks (provider : Nat → Nat → Option String)
    (aborted : Nat → Bool) (total : Nat) :
    Nat → Nat → List (Option String) →
    Except String (List (Option String)) × List Nat
  | 0, _, images => (Except.ok images, [])
  | fuel + 1, c, images =>
    if 10 * c < total then
      if aborted c then (Except.error ("Generation cancelled"), [])
      else
        let idxs := List.range' (10 * c) (min (10 * c + 10) total - 10 * c)
        let images2 := processChunk provider aborted c idxs images
        let r := runChunks provider aborted total fuel (c + 1) images2
        (r.fst, idxs ++ r.snd)
    else (Except.ok images, [])

/-- `generateAllImages(descriptions, …, signal)` (lines 482-573): the
`images` array starts as `new Array(N).fill(null)` and the batch loop
runs with batch size 10.  `descs.length` chunks of fuel always
suffice. -/
def generateAllImages (provider : Nat → Nat → Option String)
    (aborted : Nat → Bool) (descs : List String) :
    Except String (List (Option String)) :=
  (runChunks provider aborted descs.length descs.length 0
    (List.replicate descs.length none)).fst

/-- The item indices `generateAllImages` dispatches (reaches the
`generateImageWithRateLimit(desc, index)` call for). -/
def dispatchedIndices (provider : Nat → Nat → Option String)
    (aborted : Nat → Bool) (descs : List String) : List Nat :=
  (runChunks provider aborted descs.length descs.length 0
    (List.replicate descs.length none)).snd

/-- The per-index outcome array `generateAllImages` produces when it
runs to completion: slot `i` holds the retry-loop result for symbol
`i`. -/
def expectedImages (provider : Nat → Nat → Option String) (n : Nat) :
    List (Option String) :=
  (List.range n).map (fun i => generateImageWithRateLimit provider i 3)

/-!
Model of the two layout generators.  Pixel quantities are rationals.
The float-valued seeded pseudo-random primitive
(`seededRandom(seed) = frac(sin(…seed…) * 10000)`, whose values lie in
`[0, 1)`) is abstracted as a function parameter `rnd`, and — for the
radial strategy — the cosine/sine of the jittered angle of card
`cardIndex`, position `i` are abstracted as oracles `cosv`/`sinv`
with values in `[-1, 1]`: IEEE trigonometry is not shallowly
embeddable, and the claims under verification depend only on these
ranges. -/

/-- One symbol placement: position, square edge length, rotation. -/
structure Placement where
  x : Rat
  y : Rat
  size : Rat
  rotation : Rat
deriving DecidableEq

/-- `getGridDimensions(n)` from `generateAllLayouts`
(`src/algorithm.js`, lines 121-127); `Math.ceil(n / 4) = (n + 3) / 4`
on naturals. -/
def getGridDimensions (n : Nat) : Nat × Nat :=
  if n ≤ 2 then (2, 1)
  else if n ≤ 4 then (2, 2)
  else if n ≤ 6 then (3, 2)
  else if n ≤ 9 then (3, 3)
  else (4, (n + 3) / 4)

/-- The destructuring swap `[a[i], a[j]] = [a[j], a[i]]`.  The source
only ever swaps in-bounds positions (`j = floor(r * (i+1)) ≤ i` for
`r ∈ [0,1)`); the bounds guard makes the embedding total without
changing in-domain behaviour. -/
def swapIdx {α : Type} (l : List α) (i j : Nat) : List α :=
  if h : i < l.length ∧ j < l.length then
    (l.set i (l.get ⟨j, h.2⟩)).set j (l.get ⟨i, h.1⟩)
  else l

/-- `Math.floor` of a non-negative number, as a natural. -/
def ratFloorNat (q : Rat) : Nat := q.floor.toNat

/-- The descending index sequence `m, m-1, …, 1` of a Fisher-Yates
loop `for (let i = m; i > 0; i--)`. -/
def revRange : Nat → List Nat
  | 0 => []
  | m + 1 => (m + 1) :: revRange m

/-- `seededShuffle(array, seed)` (`src/algorithm.js`, lines 111-118)
and the identical inline shuffle of the radial strategy: for `i` from
`length - 1` down to `1`, swap position `i` with position
`floor(rnd(seed + i) * (i + 1))`. -/
def seededShuffle {α : Type} (rnd : Nat → Rat) (l : List α) (seed : Nat) :
    List α :=
  (revRange (l.length - 1)).foldl
    (fun acc i => swapIdx acc i (ratFloorNat (rnd (seed + i) * (i + 1)))) l

/-- The `basePositions` grid of `generateAllLayouts`
(`src/algorithm.js`, lines 129-158): one centred square per grid cell,
rotation `0`; `0.08 = 2/25`, `0.85 = 17/20`. -/
def gridBasePositions (symbolsPerCard : Nat) (cardSize : Rat) :
    List Placement :=
  let dims := getGridDimensions symbolsPerCard
  let cols := dims.1
  let rows := dims.2
  let padding := cardSize * (2 / 25)
  let availableWidth := cardSize - padding * 2
  let availableHeight := cardSize - padding * 2
  let cellWidth := availableWidth / (cols : Rat)
  let cellHeight := availableHeight / (rows : Rat)
  let symbolSize := (min cellWidth cellHeight) * (17 / 20)
  (List.range symbolsPerCard).map (fun i =>
    let col := i % cols
    let row := i / cols
    let cellX := padding + (col : Rat) * cellWidth
    let cellY := padding + (row : Rat) * cellHeight
    { x := cellX + (cellWidth - symbolSize) / 2,
      y := cellY + (cellHeight - symbolSize) / 2,
      size := symbolSize,
      rotation := 0 })

/-- `generateAllLayouts(numCards, symbolsPerCard, cardSize)` of
`src/algorithm.js` (grid-scatter strategy, lines 101-168): the base
grid, shuffled per card with seed `cardIndex * 137`. -/
def generateAllLayouts (rnd : Nat → Rat) (numCards symbolsPerCard : Nat)
    (cardSize : Rat) : List (List Placement) :=
  (List.range numCards).map (fun cardIndex =>
    seededShuffle rnd (gridBasePositions symbolsPerCard cardSize)
      (cardIndex * 137))

/-- The radial strategy's `sizeCategories`
`[0.42, 0.38, 0.34, 0.30, 0.26, 0.22]`. -/
def sizeCategories : List Rat :=
  [21 / 50, 19 / 50, 17 / 50, 3 / 10, 13 / 50, 11 / 50]

/-- The radial strategy's per-card shuffled size assignment (its
inline Fisher-Yates with seeds `cardIndex * 50 + i` is exactly
`seededShuffle` with base seed `cardIndex * 50`). -/
def radialShuffledSizes (rnd : Nat → Rat) (cardIndex : Nat) : List Rat :=
  seededShuffle rnd sizeCategories (cardIndex * 50)

/-- One placement of the radial-scatter `generateAllLayouts` (the
second source variant, lines 114-148): `0.28 = 7/25`,
`0.15 = 3/20`, `0.075 = 3/40`, `0.25 = 1/4`, `0.6 = 3/5`,
`1.2 = 6/5`, `0.4 = 2/5`, `0.42 = 21/50`; `cosv`/`sinv` stand for the
cosine/sine of the jittered angle of `(cardIndex, i)`. -/
def radialPlacement (rnd : Nat → Rat) (cosv sinv : Nat → Nat → Rat)
    (cardIndex : Nat) (cardSize : Rat) (i : Nat) : Placement :=
  let center := cardSize / 2
  let baseRadius := cardSize * (7 / 25)
  let shuffledSizes := radialShuffledSizes rnd cardIndex
  let seed := cardIndex * 100 + i
  let baseSizeRatio := shuffledSizes.getD (i % shuffledSizes.length) 0
  let sizeVariation := 1 + (rnd (seed + 2) * (3 / 20) - 3 / 40)
  let size := cardSize * baseSizeRatio * sizeVariation
  let sizeInfluence := baseSizeRatio / (21 / 50)
  let distVariation := rnd (seed + 1) * (1 / 4) + 3 / 5
  let dist := baseRadius * distVariation * (6 / 5 - sizeInfluence * (2 / 5))
  { x := center + cosv cardIndex i * dist - size / 2,
    y := center + sinv cardIndex i * dist - size / 2,
    size := size,
    rotation := rnd (seed + 3) * 360 }

/-- The radial-scatter `generateAllLayouts(numCards, symbolsPerCard,
cardSize)` (second source variant, lines 101-152). -/
def generateAllLayoutsRadial (rnd : Nat → Rat)
    (cosv sinv : Nat → Nat → Rat) (numCards symbolsPerCard : Nat)
    (cardSize : Rat) : List (List Placement) :=
  (List.range numCards).map (fun cardIndex =>
    (List.range symbolsPerCard).map
      (radialPlacement rnd cosv sinv cardIndex cardSize))

/-- Concrete oracles used by witnesses: a provider that always
succeeds. -/
def alwaysProvider : Nat → Nat → Option String := fun _ _ => some ("img")

/-- Witness provider: symbol `0` fails every attempt, other symbols
fail attempt `0` and succeed from attempt `1` on. -/
def failFirstProvider : Nat → Nat → Option String := fun i a =>
  if i = 0 then none else if 1 ≤ a then some ("ok") else none

/-- Witness abort oracle: false at chunk boundary `0`, true from
sample `1` on (a signal that fires after the first chunk's boundary
check has already passed). -/
def lateAbort : Nat → Bool := fun c => decide (1 ≤ c)

/-- Witness pseudo-random oracle (constantly `0`, a value in
`[0, 1)`). -/
def zeroRnd : Nat → Rat := fun _ => 0

/-- Witness trigonometric oracle (constantly `0`, a value in
`[-1, 1]`). -/
def zeroTrig : Nat → Nat → Rat := fun _ _ => 0

end SpotIt

namespace SpotIt

/-- Indexing a flattened list of uniform-length blocks: position
`i * k + j` of the flattening is position `j` of block `i`. -/
theorem flatten_getElem_uniform {α : Type} {k : Nat} :
    ∀ (L : List (List α)) (i j : Nat), (∀ l ∈ L, l.length = k) →
      (hi : i < L.length) → j < k →
      L.flatten[i * k + j]? = (L.get ⟨i, hi⟩)[j]? := by
  intro L
  induction L with
  | nil => intro i j _ hi _; exact absurd hi (by simp)
  | cons a L ih =>
    intro i j h hi hj
    have ha : a.length = k := h a (List.mem_cons_self a L)
    match i with
    | 0 =>
      simp only [List.flatten_cons, Nat.zero_mul, Nat.zero_add]
      rw [List.getElem?_append_left (by omega)]
      rfl
    | i + 1 =>
      simp only [List.flatten_cons]
      have hk : a.length ≤ (i + 1) * k + j := by
        rw [ha]; calc k ≤ (i + 1) * k := Nat.le_mul_of_pos_left k (Nat.succ_pos i)
          _ ≤ (i + 1) * k + j := Nat.le_add_right _ _
      rw [List.getElem?_append_right hk]
      have harith : (i + 1) * k + j - a.length = i * k + j := by
        rw [ha]; ring_nf; omega
      rw [harith]
      have hi2 : i < L.length := by simpa using Nat.lt_of_succ_lt_succ hi
      rw [ih i j (fun l hl => h l (List.mem_cons_of_mem a hl)) hi2 hj]
      rfl

/-- The generated deck always has `n² + n + 1` cards. -/
theorem length_generateCards (n : Nat) :
    (generateCards n).length = n * n + n + 1 := by
  simp only [generateCards, List.length_cons, List.length_append,
    List.length_map, List.length_range, List.length_flatten, List.map_map]
  have : ((List.range n).map
      ((fun l => List.length l) ∘ fun i => (List.range n).map (gridCard n i)))
      = (List.range n).map (fun _ => n) := by
    apply List.map_congr_left
    intro i _
    simp
  rw [this, List.map_const', List.sum_replicate, List.length_range,
    smul_eq_mul]
  ring

/-- Claim C1: for every supported order `n ∈ {2, 3, 5, 7}`,
`generateCards n` returns exactly `n² + n + 1` cards, each made of
exactly `n + 1` distinct symbol indices drawn from `[0, n² + n + 1)`,
and every pair of distinct cards shares exactly one symbol
(equivalently `verifyCards (generateCards n) = true`). -/
theorem c1_supported_orders_valid (n : Nat)
    (h : n = 2 ∨ n = 3 ∨ n = 5 ∨ n = 7) :
    (generateCards n).length = n * n + n + 1 ∧
    (generateCards n).all (cardOk (n * n + n + 1) (n + 1)) = true ∧
    verifyCards (generateCards n) = true := by
  rcases h with h | h | h | h <;> subst h <;>
    exact ⟨by decide, by decide, by decide⟩

/-- Witness for C1 at the supported order `n = 2`. -/
theorem c1_supported_orders_valid_witness :
    (generateCards 2).length = 7 ∧
    (generateCards 2).all (cardOk 7 3) = true ∧
    verifyCards (generateCards 2) = true :=
  c1_supported_orders_valid 2 (Or.inl rfl)

/-- Claim C2: `generateCards n` produces exactly the sequence the spec
describes, in exactly that order: card `0` is `[0, …, n]`; card `1 + i`
(for `i < n`) is `0` followed by `n + 1 + i*n + j` for `j = 0 … n-1`;
card `n + 1 + i*n + j` (for `i, j < n`, row-major) starts with `i + 1`
followed by `n + 1 + k*n + ((i*k + j) mod n)` for `k = 0 … n-1`; and in
particular `generateCards 2` is the concrete 7-card fixture over
`{0, …, 6}` with card 0 equal to `[0, 1, 2]`. -/
theorem c2_exact_card_sequence (n : Nat) :
    (generateCards n).length = n * n + n + 1 ∧
    (generateCards n)[0]? = some (List.range (n + 1)) ∧
    (∀ i, i < n → (generateCards n)[1 + i]? =
      some (0 :: (List.range n).map (fun j => n + 1 + i * n + j))) ∧
    (∀ i j, i < n → j < n → (generateCards n)[n + 1 + i * n + j]? =
      some ((i + 1) ::
        (List.range n).map (fun k => n + 1 + k * n + ((i * k + j) % n)))) ∧
    generateCards 2 =
      [[0, 1, 2], [0, 3, 4], [0, 5, 6], [1, 3, 5], [1, 4, 6], [2, 3, 6],
        [2, 4, 5]] := by
  refine ⟨length_generateCards n, ?_, ?_, ?_, by decide⟩
  · show (firstCard n :: _)[0]? = _
    rw [List.getElem?_cons_zero]
    rfl
  · intro i hi
    show (firstCard n ::
      ((List.range n).map (groupCard n) ++ _))[1 + i]? = _
    rw [Nat.add_comm 1 i, List.getElem?_cons_succ,
      List.getElem?_append_left (by simpa using hi)]
    simp [groupCard, List.getElem?_range hi]
  · intro i j hi hj
    show (firstCard n ::
      ((List.range n).map (groupCard n) ++
        ((List.range n).map
          (fun i => (List.range n).map (gridCard n i))).flatten))[n + 1 + i * n + j]? = _
    have harr : n + 1 + i * n + j = (n + i * n + j) + 1 := by omega
    rw [harr, List.getElem?_cons_succ,
      List.getElem?_append_right (by simp; omega)]
    have harr2 : n + i * n + j - ((List.range n).map (groupCard n)).length
        = i * n + j := by simp; omega
    rw [harr2]
    have hlen : ∀ l ∈ (List.range n).map
        (fun i => (List.range n).map (gridCard n i)), l.length = n := by
      intro l hl
      rcases List.mem_map.mp hl with ⟨i, _, rfl⟩
      simp
    have hiL : i < ((List.range n).map
        (fun i => (List.range n).map (gridCard n i))).length := by
      simpa using hi
    rw [flatten_getElem_uniform _ i j hlen hiL hj]
    have hget : ((List.range n).map
        (fun i => (List.range n).map (gridCard n i))).get ⟨i, hiL⟩
        = (List.range n).map (gridCard n i) := by
      simp [List.get_eq_getElem]
    rw [hget]
    simp [gridCard, List.getElem?_range hj]

/-- Witness for C2 (the universally quantified inner parts) at
`n = 2`, `i = 1`, `j = 1`. -/
theorem c2_exact_card_sequence_witness :
    (generateCards 2)[2 + 1 + 1 * 2 + 1]? = some [2, 4, 5] :=
  ((c2_exact_card_sequence 2).2.2.2.1 1 1 (by decide) (by decide)).trans
    (by decide)

/-- Claim C3 (code bug): `generateCards` contains no validation of its
order argument. At the unsupported order `n = 4` it silently returns a
complete 21-card deck of well-formed 5-symbol cards that violates the
one-shared-symbol invariant (`verifyCards` rejects it), instead of
failing fast before generation as the spec's §7 error taxonomy
requires. -/
theorem c3_unsupported_order_silently_miscomputes :
    (generateCards 4).length = 21 ∧
    (generateCards 4).all (cardOk 21 5) = true ∧
    verifyCards (generateCards 4) = false := by
  exact ⟨by decide, by decide, by decide⟩

/-- Bound used for the symbol indices of group and grid cards:
`n + 1 + k*n + r < n² + n + 1` whenever `k, r < n`. -/
theorem symbolIndex_lt {n k r : Nat} (hk : k < n) (hr : r < n) :
    n + 1 + k * n + r < n * n + n + 1 := by
  have h1 : (k + 1) * n ≤ n * n := Nat.mul_le_mul_right n hk
  have h2 : k * n + n ≤ n * n := by
    calc k * n + n = (k + 1) * n := by ring
      _ ≤ n * n := h1
  omega

/-- Claim C10: `generateCards` is total over every positive order,
supported or not: it always returns exactly `n² + n + 1` cards, each of
exactly `n + 1` entries, all entries lying in `[0, n² + n + 1)`. -/
theorem c10_generateCards_total (n : Nat) (hn : 1 ≤ n) :
    (generateCards n).length = n * n + n + 1 ∧
    ∀ c ∈ generateCards n, c.length = n + 1 ∧ ∀ s ∈ c, s < n * n + n + 1 := by
  refine ⟨length_generateCards n, ?_⟩
  intro c hc
  simp only [generateCards, List.mem_cons, List.mem_append, List.mem_map,
    List.mem_flatten, List.mem_range] at hc
  rcases hc with rfl | ⟨i, hi, rfl⟩ | ⟨l, ⟨i, hi, rfl⟩, hcl⟩
  · constructor
    · simp [firstCard]
    · intro s hs
      have := List.mem_range.mp hs
      omega
  · constructor
    · simp [groupCard]
    · intro s hs
      rcases List.mem_cons.mp hs with rfl | hs2
      · omega
      · rcases List.mem_map.mp hs2 with ⟨j, hj, rfl⟩
        exact symbolIndex_lt hi (List.mem_range.mp hj)
  · rcases List.mem_map.mp hcl with ⟨j, hj, rfl⟩
    constructor
    · simp [gridCard]
    · intro s hs
      rcases List.mem_cons.mp hs with rfl | hs2
      · omega
      · rcases List.mem_map.mp hs2 with ⟨k, hk, rfl⟩
        exact symbolIndex_lt (List.mem_range.mp hk)
          (Nat.mod_lt _ (by omega))

/-- Witness for C10 at the unsupported (non-prime) order `n = 4`. -/
theorem c10_generateCards_total_witness :
    (generateCards 4).length = 21 ∧
    ∀ c ∈ generateCards 4, c.length = 5 ∧ ∀ s ∈ c, s < 21 :=
  c10_generateCards_total 4 (by decide)

/-- Filtering with a pointwise weaker predicate keeps at least as many
elements. -/
theorem length_filter_le_of_imp {α : Type} (l : List α) (p q : α → Bool)
    (h : ∀ x ∈ l, p x = true → q x = true) :
    (l.filter p).length ≤ (l.filter q).length := by
  induction l with
  | nil => simp
  | cons a l ih =>
    have ht := ih (fun x hx => h x (List.mem_cons_of_mem a hx))
    by_cases hp : p a = true
    · rw [List.filter_cons_of_pos hp,
        List.filter_cons_of_pos (h a (List.mem_cons_self a l) hp)]
      simpa using ht
    · rw [List.filter_cons_of_neg (by simpa using hp)]
      by_cases hq : q a = true
      · rw [List.filter_cons_of_pos hq]
        exact Nat.le_succ_of_le ht
      · rw [List.filter_cons_of_neg (by simpa using hq)]
        exact ht

/-- One rate-limiter step preserves the three inductive invariants:
the in-flight count stays within `maxConcurrent`, recorded timestamps
never lie in the future, and no sliding 60-second window holds more
than `maxPerMinute` recorded call starts. -/
theorem rl_step_invariant {C R : Nat} {s s2 : RLState}
    (hstep : RLStep C R s s2) (hA : s.activeCount ≤ C)
    (hTS : ∀ x ∈ s.timestamps, x ≤ s.now)
    (hW : ∀ t, windowCount s.timestamps t ≤ R) :
    s2.activeCount ≤ C ∧ (∀ x ∈ s2.timestamps, x ≤ s2.now) ∧
    ∀ t, windowCount s2.timestamps t ≤ R := by
  cases hstep with
  | tick ht =>
    exact ⟨hA, fun x hx => le_trans (hTS x hx) ht, hW⟩
  | release =>
    exact ⟨le_trans (Nat.sub_le _ _) hA, hTS, hW⟩
  | acquire hc hr =>
    refine ⟨hc, ?_, ?_⟩
    · intro x hx
      have hx2 : x ∈ s.now :: s.timestamps := hx
      show x ≤ s.now
      rcases List.mem_cons.mp hx2 with rfl | hx3
      · exact le_refl _
      · exact hTS x hx3
    · intro t
      show windowCount (s.now :: s.timestamps) t ≤ R
      by_cases hwin : ((s.now ≤ t && t < s.now + 60000) = true)
      · have hsub : windowCount s.timestamps t ≤
            recentCount s.timestamps s.now := by
          apply length_filter_le_of_imp
          intro x _ hx
          have hx2 : x ≤ t ∧ t < x + 60000 := by simpa using hx
          have hnow : s.now ≤ t ∧ t < s.now + 60000 := by simpa using hwin
          simp only [decide_eq_true_eq]
          omega
        have heq : windowCount (s.now :: s.timestamps) t =
            windowCount s.timestamps t + 1 := by
          unfold windowCount
          rw [@List.filter_cons_of_pos _
            (fun x => decide (x ≤ t) && decide (t < x + 60000))
            s.now s.timestamps hwin]
          rfl
        omega
      · have heq : windowCount (s.now :: s.timestamps) t =
            windowCount s.timestamps t := by
          unfold windowCount
          rw [@List.filter_cons_of_neg _
            (fun x => decide (x ≤ t) && decide (t < x + 60000))
            s.now s.timestamps (by simpa using hwin)]
        rw [heq]
        exact hW t

/-- The invariants hold in every reachable rate-limiter state. -/
theorem rl_reachable_invariant {C R : Nat} {s : RLState}
    (h : RLReachable C R s) :
    s.activeCount ≤ C ∧ (∀ x ∈ s.timestamps, x ≤ s.now) ∧
    ∀ t, windowCount s.timestamps t ≤ R := by
  induction h with
  | init t =>
    refine ⟨Nat.zero_le C, by simp, ?_⟩
    intro t2
    simp [windowCount]
  | step hr hs ih => exact rl_step_invariant hs ih.1 ih.2.1 ih.2.2

/-- Claim C5: in every state the `RateLimiter(10, 100)` admission gate
can reach — over any sequence of acquire/release events with a
monotone clock — the count of acquired-but-not-released provider calls
(`activeCount`) never exceeds 10, because `acquire` only completes
while `activeCount < maxConcurrent`.  Every in-flight `generateImage`
call of `generateAllImages` holds exactly one unreleased acquire
(`generateImageWithRateLimit` brackets the call in
`acquire` / `finally release`), so at most 10 provider calls are in
flight at any instant. -/
theorem c5_concurrency_ceiling (s : RLState) (h : RLReachable 10 100 s) :
    s.activeCount ≤ 10 :=
  (rl_reachable_invariant h).1

/-- Witness for C5: a concrete reachable state after one acquire. -/
theorem c5_concurrency_ceiling_witness :
    (⟨1, [0], 0⟩ : RLState).activeCount ≤ 10 :=
  c5_concurrency_ceiling ⟨1, [0], 0⟩
    (RLReachable.step (RLReachable.init 0)
      (RLStep.acquire (by decide) (by decide)))

/-- Claim C6: in every reachable state of the `RateLimiter(10, 100)`
gate, no sliding 60-second window — anchored at any instant `t` —
contains more than 100 recorded call-start timestamps: `acquire` only
records a new call start while fewer than 100 recorded starts lie in
the trailing 60 seconds. -/
theorem c6_rate_window_ceiling (s : RLState) (h : RLReachable 10 100 s)
    (t : Nat) : windowCount s.timestamps t ≤ 100 :=
  (rl_reachable_invariant h).2.2 t

/-- Witness for C6: the same concrete reachable state, window anchored
at `t = 500`. -/
theorem c6_rate_window_ceiling_witness :
    windowCount [0] 500 ≤ 100 :=
  c6_rate_window_ceiling ⟨1, [0], 0⟩
    (RLReachable.step (RLReachable.init 0)
      (RLStep.acquire (by decide) (by decide))) 500

/-- Membership in a step-1 `range'` block. -/
theorem mem_range'_iff (s n m : Nat) :
    m ∈ List.range' s n ↔ s ≤ m ∧ m < s + n := by
  rw [List.mem_range']
  constructor
  · rintro ⟨i, hi, rfl⟩
    omega
  · intro h
    exact ⟨m - s, by omega, by omega⟩

/-- `processChunk` never changes the length of the `images` array. -/
theorem processChunk_length (provider : Nat → Nat → Option String)
    (aborted : Nat → Bool) (c : Nat) :
    ∀ (idxs : List Nat) (images : List (Option String)),
      (processChunk provider aborted c idxs images).length =
        images.length := by
  intro idxs
  induction idxs with
  | nil => intro images; rfl
  | cons idx rest ih =>
    intro images
    have hstep : processChunk provider aborted c (idx :: rest) images =
        processChunk provider aborted c rest
          (if aborted c then images
           else images.set idx (generateImageWithRateLimit provider idx 3)) := by
      simp only [processChunk, List.foldl_cons]
    rw [hstep, ih]
    by_cases hab : aborted c <;> simp [hab]

/-- Pointwise description of `processChunk` when the chunk is not
aborted: slots listed in `idxs` (and in range) receive the retry-loop
outcome for their own index, all others are untouched. -/
theorem processChunk_getElem (provider : Nat → Nat → Option String)
    (aborted : Nat → Bool) (c : Nat) (hab : aborted c = false) :
    ∀ (idxs : List Nat) (images : List (Option String)) (m : Nat),
      (processChunk provider aborted c idxs images)[m]? =
        if m ∈ idxs ∧ m < images.length
        then some (generateImageWithRateLimit provider m 3)
        else images[m]? := by
  intro idxs
  induction idxs with
  | nil =>
    intro images m
    simp [processChunk]
  | cons idx rest ih =>
    intro images m
    have hstep : processChunk provider aborted c (idx :: rest) images =
        processChunk provider aborted c rest
          (images.set idx (generateImageWithRateLimit provider idx 3)) := by
      simp only [processChunk, List.foldl_cons, hab]
      simp
    rw [hstep, ih]
    simp only [List.length_set]
    by_cases hmr : m ∈ rest
    · by_cases hm : m < images.length
      · rw [if_pos ⟨hmr, hm⟩, if_pos ⟨List.mem_cons_of_mem idx hmr, hm⟩]
      · rw [if_neg (fun hco => hm hco.2), if_neg (fun hco => hm hco.2),
          List.getElem?_eq_none (by simpa using not_lt.mp hm),
          List.getElem?_eq_none (not_lt.mp hm)]
    · by_cases heq2 : idx = m
      · subst heq2
        by_cases hm : idx < images.length
        · rw [if_neg (fun hco => hmr hco.1),
            if_pos ⟨List.mem_cons_self idx rest, hm⟩,
            List.getElem?_set_self hm]
        · rw [if_neg (fun hco => hmr hco.1), if_neg (fun hco => hm hco.2),
            List.getElem?_eq_none (by simpa using not_lt.mp hm),
            List.getElem?_eq_none (not_lt.mp hm)]
      · rw [if_neg (fun hco => hmr hco.1), List.getElem?_set_ne heq2,
          if_neg (fun hco => ?_)]
        rcases List.mem_cons.mp hco.1 with he | hr2
        · exact heq2 he.symm
        · exact hmr hr2

/-- Running the chunk loop with a never-aborted signal always reaches
the final `return images`, with every index from `10 * c` on set to
its own retry-loop outcome and every earlier slot untouched. -/
theorem runChunks_noAbort (provider : Nat → Nat → Option String)
    (N : Nat) :
    ∀ fuel c images, N ≤ 10 * c + 10 * fuel → images.length = N →
      ∃ imgs,
        (runChunks provider (fun _ => false) N fuel c images).fst =
          Except.ok imgs ∧
        imgs.length = N ∧
        ∀ m, m < N → imgs[m]? =
          if 10 * c ≤ m
          then some (generateImageWithRateLimit provider m 3)
          else images[m]? := by
  intro fuel
  induction fuel with
  | zero =>
    intro c images hfuel hlen
    refine ⟨images, rfl, hlen, ?_⟩
    intro m hm
    rw [if_neg (by omega)]
  | succ fuel ih =>
    intro c images hfuel hlen
    by_cases h10 : 10 * c < N
    · have hlen2 : (processChunk provider (fun _ => false) c
          (List.range' (10 * c) (min (10 * c + 10) N - 10 * c))
          images).length = N := by
        rw [processChunk_length]
        exact hlen
      obtain ⟨imgs, hok, hilen, hpt⟩ := ih (c + 1) _ (by omega) hlen2
      refine ⟨imgs, ?_, hilen, ?_⟩
      · simp only [runChunks, if_pos h10]
        simpa using hok
      · intro m hm
        have h2 := hpt m hm
        rw [processChunk_getElem provider (fun _ => false) c rfl] at h2
        rw [hlen] at h2
        have hmem : m ∈ List.range' (10 * c) (min (10 * c + 10) N - 10 * c)
            ↔ 10 * c ≤ m ∧ m < min (10 * c + 10) N := by
          rw [mem_range'_iff]
          omega
        by_cases hcm : 10 * c ≤ m
        · rw [if_pos hcm]
          by_cases hcm2 : 10 * (c + 1) ≤ m
          · rw [if_pos hcm2] at h2
            exact h2
          · rw [if_neg hcm2,
              if_pos ⟨hmem.mpr ⟨hcm, by omega⟩, hm⟩] at h2
            exact h2
        · rw [if_neg hcm]
          rw [if_neg (by omega : ¬ 10 * (c + 1) ≤ m),
            if_neg (fun hco => hcm (hmem.mp hco.1).1)] at h2
          exact h2
    · refine ⟨images, ?_, hlen, ?_⟩
      · simp only [runChunks, if_neg h10]
      · intro m hm
        rw [if_neg (by omega)]

/-- The retry loop of `generateImageWithRateLimit` with `maxRetries =
3` returns `none` (permanent failure) exactly when all three attempts
fail. -/
theorem generateImageWithRateLimit_none_iff
    (provider : Nat → Nat → Option String) (i : Nat) :
    generateImageWithRateLimit provider i 3 = none ↔
      ∀ a, a < 3 → provider i a = none := by
  constructor
  · intro h
    have h3 : provider i 0 = none ∧ provider i 1 = none ∧
        provider i 2 = none := by
      cases h0 : provider i 0 with
      | some r => simp [generateImageWithRateLimit, retryAttempts, h0] at h
      | none =>
        cases h1 : provider i 1 with
        | some r =>
          simp [generateImageWithRateLimit, retryAttempts, h0, h1] at h
        | none =>
          cases h2 : provider i 2 with
          | some r =>
            simp [generateImageWithRateLimit, retryAttempts, h0, h1, h2] at h
          | none => exact ⟨rfl, rfl, rfl⟩
    intro a ha
    rcases a with _ | _ | _ | a
    · exact h3.1
    · exact h3.2.1
    · exact h3.2.2
    · omega
  · intro h
    simp [generateImageWithRateLimit, retryAttempts,
      h 0 (by omega), h 1 (by omega), h 2 (by omega)]

/-- Claim C4: with no cancellation, `generateAllImages` always runs the
whole batch to completion and returns an array exactly as long as the
description list, whose slot `i` holds the retry-loop outcome of symbol
`i` alone — `null` precisely when all `M = 3` attempts for that symbol
failed, the artwork otherwise — so one symbol's permanent failure never
aborts the batch or disturbs any other index. -/
theorem c4_partial_failure_isolation (provider : Nat → Nat → Option String)
    (descs : List String) :
    generateAllImages provider (fun _ => false) descs =
      Except.ok (expectedImages provider descs.length) ∧
    (expectedImages provider descs.length).length = descs.length ∧
    ∀ i, i < descs.length →
      (expectedImages provider descs.length)[i]? =
        some (generateImageWithRateLimit provider i 3) ∧
      (generateImageWithRateLimit provider i 3 = none ↔
        ∀ a, a < 3 → provider i a = none) := by
  obtain ⟨imgs, hok, hlen, hpt⟩ := runChunks_noAbort provider descs.length
    descs.length 0 (List.replicate descs.length none) (by omega) (by simp)
  have himgs : imgs = expectedImages provider descs.length := by
    apply List.ext_getElem?
    intro m
    by_cases hm : m < descs.length
    · rw [hpt m hm, if_pos (by omega)]
      simp [expectedImages, List.getElem?_range hm]
    · rw [List.getElem?_eq_none (by omega : imgs.length ≤ m),
        List.getElem?_eq_none (by simpa [expectedImages] using not_lt.mp hm)]
  refine ⟨?_, by simp [expectedImages], ?_⟩
  · unfold generateAllImages
    rw [hok, himgs]
  · intro i hi
    refine ⟨?_, generateImageWithRateLimit_none_iff provider i⟩
    simp [expectedImages, List.getElem?_range hi]

/-- Witness for C4: two symbols, symbol `0` failing every attempt and
symbol `1` succeeding on its second attempt; the batch still completes
with `null` only at index `0`. -/
theorem c4_partial_failure_isolation_witness :
    generateAllImages failFirstProvider (fun _ => false)
      [("a"), ("b")] = Except.ok [none, some ("ok")] := by
  have h := (c4_partial_failure_isolation failFirstProvider
    [("a"), ("b")]).1
  rw [h]
  exact congrArg Except.ok (by decide)

/-- If the abort signal is true at some chunk boundary `cAb` that still
has work after it, the chunk loop — entered at or before that boundary
— rejects with the cancellation error and dispatches no item index of
chunk `cAb` or later. -/
theorem runChunks_aborted (provider : Nat → Nat → Option String)
    (aborted : Nat → Bool) (N cAb : Nat) (hcAb : 10 * cAb < N)
    (hab : aborted cAb = true) :
    ∀ fuel c images, c ≤ cAb → N ≤ 10 * c + 10 * fuel →
      (runChunks provider aborted N fuel c images).fst =
        Except.error ("Generation cancelled") ∧
      ∀ i ∈ (runChunks provider aborted N fuel c images).snd,
        i < 10 * cAb := by
  intro fuel
  induction fuel with
  | zero =>
    intro c images hc hfuel
    exact absurd hcAb (by omega)
  | succ fuel ih =>
    intro c images hc hfuel
    have h10 : 10 * c < N := by omega
    by_cases habc : aborted c = true
    · constructor
      · simp only [runChunks, if_pos h10, habc]
        rfl
      · intro i hi
        simp only [runChunks, if_pos h10, habc] at hi
        simp at hi
    · have hcne : c ≠ cAb := fun he => habc (he ▸ hab)
      have hclt : c < cAb := lt_of_le_of_ne hc hcne
      have hrec := ih (c + 1)
        (processChunk provider aborted c
          (List.range' (10 * c) (min (10 * c + 10) N - 10 * c)) images)
        (by omega) (by omega)
      have habf : aborted c = false := by
        simpa using habc
      constructor
      · simp only [runChunks, if_pos h10, habf]
        simpa using hrec.1
      · intro i hi
        simp only [runChunks, if_pos h10, habf] at hi
        simp only [Bool.false_eq_true, if_false, List.mem_append] at hi
        rcases hi with hi | hi
        · have := (mem_range'_iff _ _ i).mp hi
          omega
        · exact hrec.2 i hi

/-- Claim C7 (amended): whenever the cancellation signal is observed
at a chunk-boundary check that still has work after it
(`10 * c < N`), `generateAllImages` rejects with exactly the
distinguishable `"Generation cancelled"` error, never an ordinary
result array, and no item of that chunk or any later chunk is ever
dispatched (in-flight items of earlier chunks had already settled at
the boundary). -/
theorem c7_cancellation_observed_at_boundary
    (provider : Nat → Nat → Option String) (aborted : Nat → Bool)
    (descs : List String) (c : Nat)
    (hc : 10 * c < descs.length) (hab : aborted c = true) :
    generateAllImages provider aborted descs =
      Except.error ("Generation cancelled") ∧
    ∀ i ∈ dispatchedIndices provider aborted descs, i < 10 * c := by
  have h := runChunks_aborted provider aborted descs.length c hc hab
    descs.length 0 (List.replicate descs.length none) (Nat.zero_le c)
    (by omega)
  exact ⟨h.1, h.2⟩

/-- Witness for C7 (amended): 11 descriptions (two chunks), signal
firing between boundary 0 and boundary 1. -/
theorem c7_cancellation_observed_at_boundary_witness :
    generateAllImages alwaysProvider lateAbort
      (List.replicate 11 ("d")) = Except.error ("Generation cancelled") :=
  (c7_cancellation_observed_at_boundary alwaysProvider lateAbort
    (List.replicate 11 ("d")) 1 (by decide) (by decide)).1

/-- Claim C7 counterexample: a cancellation signal that fires after
the final chunk's boundary check has already passed — here, while item
0 of a 1-item batch is still in flight, with `0 < 1` items completed —
is never observed again: `generateAllImages` resolves with the
ordinary result array (and the item was dispatched), not with the
distinguishable cancelled outcome the claim requires for every
`k < N` cancellation. -/
theorem c7_cancel_after_final_boundary_returns_ordinary_array :
    lateAbort 0 = false ∧ lateAbort 1 = true ∧
    generateAllImages alwaysProvider lateAbort [("d")] =
      Except.ok [some ("img")] ∧
    dispatchedIndices alwaysProvider lateAbort [("d")] = [0] := by
  refine ⟨rfl, rfl, rfl, rfl⟩

/-- A swap never changes the length of the list. -/
theorem swapIdx_length {α : Type} (l : List α) (i j : Nat) :
    (swapIdx l i j).length = l.length := by
  unfold swapIdx
  split <;> simp

/-- Every element of a swapped list was an element of the original. -/
theorem swapIdx_mem {α : Type} {l : List α} {i j : Nat} {x : α}
    (hx : x ∈ swapIdx l i j) : x ∈ l := by
  unfold swapIdx at hx
  split at hx
  · rcases List.mem_or_eq_of_mem_set hx with hx2 | rfl
    · rcases List.mem_or_eq_of_mem_set hx2 with hx3 | rfl
      · exact hx3
      · exact List.get_mem l _ _
    · exact List.get_mem l _ _
  · exact hx

/-- A fold of swaps never changes the length of the list. -/
theorem foldl_swapIdx_length {α : Type} (g : Nat → Nat) :
    ∀ (steps : List Nat) (l : List α),
      (steps.foldl (fun acc i => swapIdx acc i (g i)) l).length =
        l.length := by
  intro steps
  induction steps with
  | nil => intro l; rfl
  | cons a rest ih =>
    intro l
    rw [List.foldl_cons, ih, swapIdx_length]

/-- Every element surviving a fold of swaps came from the original
list. -/
theorem foldl_swapIdx_mem {α : Type} (g : Nat → Nat) :
    ∀ (steps : List Nat) (l : List α) (x : α),
      x ∈ steps.foldl (fun acc i => swapIdx acc i (g i)) l → x ∈ l := by
  intro steps
  induction steps with
  | nil => intro l x hx; exact hx
  | cons a rest ih =>
    intro l x hx
    rw [List.foldl_cons] at hx
    exact swapIdx_mem (ih _ x hx)

/-- `seededShuffle` permutes in place: the length is unchanged. -/
theorem seededShuffle_length {α : Type} (rnd : Nat → Rat) (l : List α)
    (seed : Nat) : (seededShuffle rnd l seed).length = l.length :=
  foldl_swapIdx_length _ _ l

/-- `seededShuffle` produces no new elements. -/
theorem seededShuffle_mem {α : Type} {rnd : Nat → Rat} {l : List α}
    {seed : Nat} {x : α} (hx : x ∈ seededShuffle rnd l seed) : x ∈ l :=
  foldl_swapIdx_mem _ _ l x hx

/-- Both grid dimensions are positive. -/
theorem getGridDimensions_pos (k : Nat) :
    1 ≤ (getGridDimensions k).1 ∧ 1 ≤ (getGridDimensions k).2 := by
  unfold getGridDimensions
  split_ifs <;> simp <;> omega

/-- The grid always has at least `k` cells. -/
theorem getGridDimensions_cover (k : Nat) :
    k ≤ (getGridDimensions k).1 * (getGridDimensions k).2 := by
  unfold getGridDimensions
  split_ifs <;> simp <;> omega

/-- The base grid has one placement per symbol. -/
theorem gridBasePositions_length (k : Nat) (s : Rat) :
    (gridBasePositions k s).length = k := by
  simp [gridBasePositions]

/-- Every base-grid placement's square lies inside the canvas
`[0, s] × [0, s]`. -/
theorem gridBasePositions_bounds (k : Nat) (s : Rat) (hs : 0 ≤ s) :
    ∀ p ∈ gridBasePositions k s,
      0 ≤ p.x ∧ p.x + p.size ≤ s ∧ 0 ≤ p.y ∧ p.y + p.size ≤ s := by
  intro p hp
  simp only [gridBasePositions, List.mem_map, List.mem_range] at hp
  obtain ⟨i, hi, rfl⟩ := hp
  have hcols : 1 ≤ (getGridDimensions k).1 := (getGridDimensions_pos k).1
  have hrows : 1 ≤ (getGridDimensions k).2 := (getGridDimensions_pos k).2
  have hcover : k ≤ (getGridDimensions k).1 * (getGridDimensions k).2 :=
    getGridDimensions_cover k
  set cols := (getGridDimensions k).1 with hcolsdef
  set rows := (getGridDimensions k).2 with hrowsdef
  set padding : Rat := s * (2 / 25) with hpaddef
  set avail : Rat := s - padding * 2 with havaildef
  set cw : Rat := avail / (cols : Rat) with hcwdef
  set ch : Rat := avail / (rows : Rat) with hchdef
  set sym : Rat := (min cw ch) * (17 / 20) with hsymdef
  have hpad0 : 0 ≤ padding := by
    rw [hpaddef]; positivity
  have havail0 : 0 ≤ avail := by
    rw [havaildef, hpaddef]; nlinarith
  have hcolsQ : (0 : Rat) < (cols : Rat) := by
    exact_mod_cast Nat.lt_of_lt_of_le Nat.zero_lt_one hcols
  have hrowsQ : (0 : Rat) < (rows : Rat) := by
    exact_mod_cast Nat.lt_of_lt_of_le Nat.zero_lt_one hrows
  have hcw0 : 0 ≤ cw := by
    rw [hcwdef]; exact div_nonneg havail0 (le_of_lt hcolsQ)
  have hch0 : 0 ≤ ch := by
    rw [hchdef]; exact div_nonneg havail0 (le_of_lt hrowsQ)
  have hmin0 : 0 ≤ min cw ch := le_min hcw0 hch0
  have hsym0 : 0 ≤ sym := by
    rw [hsymdef]; nlinarith
  have hsymcw : sym ≤ cw := by
    rw [hsymdef]
    nlinarith [min_le_left cw ch]
  have hsymch : sym ≤ ch := by
    rw [hsymdef]
    nlinarith [min_le_right cw ch]
  have hcwmul : (cols : Rat) * cw = avail := by
    rw [hcwdef, mul_comm, div_mul_cancel₀ avail (ne_of_gt hcolsQ)]
  have hchmul : (rows : Rat) * ch = avail := by
    rw [hchdef, mul_comm, div_mul_cancel₀ avail (ne_of_gt hrowsQ)]
  have hcolUB : ((i % cols : Nat) : Rat) ≤ (cols : Rat) - 1 := by
    have h1 : i % cols + 1 ≤ cols := Nat.mod_lt i (by omega)
    have h2 : ((i % cols : Nat) : Rat) + 1 ≤ (cols : Rat) := by
      exact_mod_cast h1
    linarith
  have hrowNat : i / cols < rows :=
    Nat.div_lt_of_lt_mul (Nat.lt_of_lt_of_le hi hcover)
  have hrowUB : ((i / cols : Nat) : Rat) ≤ (rows : Rat) - 1 := by
    have h2 : ((i / cols : Nat) : Rat) + 1 ≤ (rows : Rat) := by
      exact_mod_cast hrowNat
    linarith
  have hcolmul : ((i % cols : Nat) : Rat) * cw ≤ ((cols : Rat) - 1) * cw :=
    mul_le_mul_of_nonneg_right hcolUB hcw0
  have hrowmul : ((i / cols : Nat) : Rat) * ch ≤ ((rows : Rat) - 1) * ch :=
    mul_le_mul_of_nonneg_right hrowUB hch0
  have hcol0 : 0 ≤ ((i % cols : Nat) : Rat) := Nat.cast_nonneg _
  have hrow0 : 0 ≤ ((i / cols : Nat) : Rat) := Nat.cast_nonneg _
  have hcolcw0 : 0 ≤ ((i % cols : Nat) : Rat) * cw := mul_nonneg hcol0 hcw0
  have hrowch0 : 0 ≤ ((i / cols : Nat) : Rat) * ch := mul_nonneg hrow0 hch0
  refine ⟨?_, ?_, ?_, ?_⟩
  · show 0 ≤ padding + ((i % cols : Nat) : Rat) * cw + (cw - sym) / 2
    linarith
  · show padding + ((i % cols : Nat) : Rat) * cw + (cw - sym) / 2 + sym ≤ s
    have hx : padding + ((i % cols : Nat) : Rat) * cw + (cw - sym) / 2 + sym
        ≤ padding + ((cols : Rat) - 1) * cw + cw := by linarith
    have hfull : padding + ((cols : Rat) - 1) * cw + cw = padding + avail := by
      linear_combination hcwmul
    rw [hfull] at hx
    rw [havaildef] at hx
    linarith
  · show 0 ≤ padding + ((i / cols : Nat) : Rat) * ch + (ch - sym) / 2
    linarith
  · show padding + ((i / cols : Nat) : Rat) * ch + (ch - sym) / 2 + sym ≤ s
    have hy : padding + ((i / cols : Nat) : Rat) * ch + (ch - sym) / 2 + sym
        ≤ padding + ((rows : Rat) - 1) * ch + ch := by linarith
    have hfull : padding + ((rows : Rat) - 1) * ch + ch = padding + avail := by
      linear_combination hchmul
    rw [hfull] at hy
    rw [havaildef] at hy
    linarith

/-- Every size category lies in `[0.22, 0.42]`. -/
theorem sizeCategories_bounds :
    ∀ r ∈ sizeCategories, 11 / 50 ≤ r ∧ r ≤ 21 / 50 := by
  intro r hr
  fin_cases hr <;> constructor <;> norm_num

/-- Core inequality of the radial strategy: with the size ratio in its
category range, the two random draws in `[0, 1)` and the cosine/sine
value in `[-1, 1]`, the placed square stays inside `[0, s]`. -/
theorem radial_core (s r dv sv cv : Rat) (hs : 0 ≤ s)
    (hr1 : 11 / 50 ≤ r) (hr2 : r ≤ 21 / 50)
    (hdv1 : 3 / 5 ≤ dv) (hdv2 : dv ≤ 17 / 20)
    (hsv1 : 37 / 40 ≤ sv) (hsv2 : sv ≤ 43 / 40)
    (hcv1 : -1 ≤ cv) (hcv2 : cv ≤ 1) :
    0 ≤ s / 2 + cv * (s * (7 / 25) * dv * (6 / 5 - r * (20 / 21))) -
        s * r * sv / 2 ∧
    s / 2 + cv * (s * (7 / 25) * dv * (6 / 5 - r * (20 / 21))) -
        s * r * sv / 2 + s * r * sv ≤ s := by
  have hF0 : (0 : Rat) ≤ 6 / 5 - r * (20 / 21) := by linarith
  have hdv0 : (0 : Rat) ≤ dv := by linarith
  have hdist0 : 0 ≤ s * (7 / 25) * dv * (6 / 5 - r * (20 / 21)) :=
    mul_nonneg (mul_nonneg (mul_nonneg hs (by norm_num)) hdv0) hF0
  have hsr : 0 ≤ s * r := mul_nonneg hs (by linarith)
  have hsF : 0 ≤ s * (7 / 25) * (6 / 5 - r * (20 / 21)) :=
    mul_nonneg (mul_nonneg hs (by norm_num)) hF0
  have h1a : 0 ≤ (cv + 1) *
      (s * (7 / 25) * dv * (6 / 5 - r * (20 / 21))) :=
    mul_nonneg (by linarith) hdist0
  have h1b : 0 ≤ (1 - cv) *
      (s * (7 / 25) * dv * (6 / 5 - r * (20 / 21))) :=
    mul_nonneg (by linarith) hdist0
  have h2 : 0 ≤ (17 / 20 - dv) *
      (s * (7 / 25) * (6 / 5 - r * (20 / 21))) :=
    mul_nonneg (by linarith) hsF
  have h3 : 0 ≤ (43 / 40 - sv) * (s * r) :=
    mul_nonneg (by linarith) hsr
  have h4 : 0 ≤ s *
      (1 / 2 - (119 / 500) * (6 / 5 - r * (20 / 21)) - (43 / 80) * r) :=
    mul_nonneg hs (by linarith)
  constructor <;> nlinarith [h1a, h1b, h2, h3, h4]

/-- The radial per-card size list is a rearrangement of the six
categories: same length, elements drawn from `sizeCategories`. -/
theorem radialShuffledSizes_spec (rnd : Nat → Rat) (cardIndex : Nat) :
    (radialShuffledSizes rnd cardIndex).length = 6 ∧
    ∀ r ∈ radialShuffledSizes rnd cardIndex, r ∈ sizeCategories := by
  constructor
  · rw [radialShuffledSizes, seededShuffle_length]
    rfl
  · intro r hr
    exact seededShuffle_mem hr

/-- Every radial placement's square lies inside the canvas. -/
theorem radialPlacement_bounds (rnd : Nat → Rat)
    (cosv sinv : Nat → Nat → Rat) (cardIndex : Nat) (s : Rat) (i : Nat)
    (hs : 0 ≤ s) (hrnd : ∀ t, 0 ≤ rnd t ∧ rnd t < 1)
    (hcos : ∀ c j, -1 ≤ cosv c j ∧ cosv c j ≤ 1)
    (hsin : ∀ c j, -1 ≤ sinv c j ∧ sinv c j ≤ 1) :
    0 ≤ (radialPlacement rnd cosv sinv cardIndex s i).x ∧
    (radialPlacement rnd cosv sinv cardIndex s i).x +
      (radialPlacement rnd cosv sinv cardIndex s i).size ≤ s ∧
    0 ≤ (radialPlacement rnd cosv sinv cardIndex s i).y ∧
    (radialPlacement rnd cosv sinv cardIndex s i).y +
      (radialPlacement rnd cosv sinv cardIndex s i).size ≤ s := by
  obtain ⟨hlen6, hmem⟩ := radialShuffledSizes_spec rnd cardIndex
  have hmlt : i % (radialShuffledSizes rnd cardIndex).length <
      (radialShuffledSizes rnd cardIndex).length := by
    rw [hlen6]; omega
  have hratio : (radialShuffledSizes rnd cardIndex).getD
      (i % (radialShuffledSizes rnd cardIndex).length) 0 ∈
        sizeCategories := by
    rw [List.getD_eq_getElem?_getD, List.getElem?_eq_getElem hmlt]
    exact hmem _ (List.getElem_mem hmlt)
  obtain ⟨hr1, hr2⟩ := sizeCategories_bounds _ hratio
  simp only [radialPlacement]
  set r := (radialShuffledSizes rnd cardIndex).getD
    (i % (radialShuffledSizes rnd cardIndex).length) 0 with hrdef
  set seed := cardIndex * 100 + i with hseeddef
  obtain ⟨ha0, ha1⟩ := hrnd (seed + 1)
  obtain ⟨hb0, hb1⟩ := hrnd (seed + 2)
  obtain ⟨hcv1, hcv2⟩ := hcos cardIndex i
  obtain ⟨hsv1, hsv2⟩ := hsin cardIndex i
  have hdv1 : (3 / 5 : Rat) ≤ rnd (seed + 1) * (1 / 4) + 3 / 5 := by
    linarith
  have hdv2 : rnd (seed + 1) * (1 / 4) + 3 / 5 ≤ 17 / 20 := by linarith
  have hvv1 : (37 / 40 : Rat) ≤
      1 + (rnd (seed + 2) * (3 / 20) - 3 / 40) := by linarith
  have hvv2 : 1 + (rnd (seed + 2) * (3 / 20) - 3 / 40) ≤ 43 / 40 := by
    linarith
  have hkey : r / (21 / 50) * (2 / 5) = r * (20 / 21) := by ring
  have hx := radial_core s r (rnd (seed + 1) * (1 / 4) + 3 / 5)
    (1 + (rnd (seed + 2) * (3 / 20) - 3 / 40)) (cosv cardIndex i)
    hs hr1 hr2 hdv1 hdv2 hvv1 hvv2 hcv1 hcv2
  have hy := radial_core s r (rnd (seed + 1) * (1 / 4) + 3 / 5)
    (1 + (rnd (seed + 2) * (3 / 20) - 3 / 40)) (sinv cardIndex i)
    hs hr1 hr2 hdv1 hdv2 hvv1 hvv2 hsv1 hsv2
  rw [← hkey] at hx hy
  refine ⟨?_, ?_, ?_, ?_⟩
  · exact hx.1
  · exact hx.2
  · exact hy.1
  · exact hy.2

/-- Claim C8: for every card count, every supported symbols-per-card
`k ∈ {3, 4, 6, 8}` and every canvas size, both layout strategies of
the repository return exactly `cardCount` layouts of exactly `k`
placements each, and every placement's square region
`[x, x + size] × [y, y + size]` lies within `[0, size] × [0, size]`.
The grid strategy satisfies the bound for every pseudo-random oracle;
the radial strategy for every oracle valued in `[0, 1)` (the range of
the source's `seededRandom`) and any cosine/sine values in `[-1, 1]`. -/
theorem c8_layout_bounds (rnd rnd2 : Nat → Rat)
    (cosv sinv : Nat → Nat → Rat) (numCards symbolsPerCard : Nat)
    (cardSize : Rat)
    (hk : symbolsPerCard = 3 ∨ symbolsPerCard = 4 ∨ symbolsPerCard = 6 ∨
      symbolsPerCard = 8)
    (hs : 0 ≤ cardSize)
    (hrnd2 : ∀ t, 0 ≤ rnd2 t ∧ rnd2 t < 1)
    (hcos : ∀ c j, -1 ≤ cosv c j ∧ cosv c j ≤ 1)
    (hsin : ∀ c j, -1 ≤ sinv c j ∧ sinv c j ≤ 1) :
    ((generateAllLayouts rnd numCards symbolsPerCard cardSize).length =
        numCards ∧
      ∀ layout ∈ generateAllLayouts rnd numCards symbolsPerCard cardSize,
        layout.length = symbolsPerCard ∧
        ∀ p ∈ layout, 0 ≤ p.x ∧ p.x + p.size ≤ cardSize ∧
          0 ≤ p.y ∧ p.y + p.size ≤ cardSize) ∧
    ((generateAllLayoutsRadial rnd2 cosv sinv numCards symbolsPerCard
        cardSize).length = numCards ∧
      ∀ layout ∈ generateAllLayoutsRadial rnd2 cosv sinv numCards
          symbolsPerCard cardSize,
        layout.length = symbolsPerCard ∧
        ∀ p ∈ layout, 0 ≤ p.x ∧ p.x + p.size ≤ cardSize ∧
          0 ≤ p.y ∧ p.y + p.size ≤ cardSize) := by
  have hk2 := hk
  refine ⟨⟨by simp [generateAllLayouts], ?_⟩,
    ⟨by simp [generateAllLayoutsRadial], ?_⟩⟩
  · intro layout hl
    simp only [generateAllLayouts, List.mem_map, List.mem_range] at hl
    obtain ⟨cardIndex, _, rfl⟩ := hl
    constructor
    · rw [seededShuffle_length, gridBasePositions_length]
    · intro p hp
      exact gridBasePositions_bounds symbolsPerCard cardSize hs p
        (seededShuffle_mem hp)
  · intro layout hl
    simp only [generateAllLayoutsRadial, List.mem_map, List.mem_range]
      at hl
    obtain ⟨cardIndex, _, rfl⟩ := hl
    constructor
    · simp
    · intro p hp
      simp only [List.mem_map, List.mem_range] at hp
      obtain ⟨i, _, rfl⟩ := hp
      exact radialPlacement_bounds rnd2 cosv sinv cardIndex cardSize i
        hs hrnd2 hcos hsin

/-- Witness for C8: one card, three symbols per card, canvas 200, with
the constant-zero oracles. -/
theorem c8_layout_bounds_witness :
    (generateAllLayouts zeroRnd 1 3 200).length = 1 ∧
    (generateAllLayoutsRadial zeroRnd zeroTrig zeroTrig 1 3 200).length
      = 1 := by
  have h := c8_layout_bounds zeroRnd zeroRnd zeroTrig zeroTrig 1 3 200
    (Or.inl rfl) (by norm_num)
    (fun t => by constructor <;> norm_num [zeroRnd])
    (fun c j => by constructor <;> norm_num [zeroTrig])
    (fun c j => by constructor <;> norm_num [zeroTrig])
  exact ⟨h.1.1, h.2.1⟩

/-- Claim C9: both layout generators are deterministic — in this
embedding they are pure functions of their arguments and of the fixed
seeded pseudo-random (and, for the radial strategy, trigonometric)
primitives, with no clock or entropy input, so two calls with
identical arguments are definitionally equal.  The substantive content
proved here: card `c`'s placement sequence depends only on
`(c, symbolsPerCard, cardSize)` and those fixed primitives — it is
unchanged by the total card count of the call that produced it. -/
theorem c9_layout_determinism (rnd : Nat → Rat)
    (cosv sinv : Nat → Nat → Rat) (n1 n2 symbolsPerCard : Nat)
    (cardSize : Rat) (c : Nat) (h1 : c < n1) (h2 : c < n2) :
    (generateAllLayouts rnd n1 symbolsPerCard cardSize)[c]? =
      (generateAllLayouts rnd n2 symbolsPerCard cardSize)[c]? ∧
    (generateAllLayoutsRadial rnd cosv sinv n1 symbolsPerCard
        cardSize)[c]? =
      (generateAllLayoutsRadial rnd cosv sinv n2 symbolsPerCard
        cardSize)[c]? := by
  constructor
  · simp [generateAllLayouts, List.getElem?_range h1,
      List.getElem?_range h2]
  · simp [generateAllLayoutsRadial, List.getElem?_range h1,
      List.getElem?_range h2]

/-- Witness for C9: card 0 of a 1-card call and of a 2-card call. -/
theorem c9_layout_determinism_witness :
    (generateAllLayouts zeroRnd 1 3 200)[0]? =
      (generateAllLayouts zeroRnd 2 3 200)[0]? ∧
    (generateAllLayoutsRadial zeroRnd zeroTrig zeroTrig 1 3 200)[0]? =
      (generateAllLayoutsRadial zeroRnd zeroTrig zeroTrig 2 3 200)[0]? :=
  c9_layout_determinism zeroRnd zeroTrig zeroTrig 1 2 3 200 0
    (by decide) (by decide)

end SpotIt
